import Mathlib

/-!
Shallow embedding of `src/main.rs` of the s3test command-line tool.

The tool talks to an S3-compatible object store.  We model the store as an
explicit collaborator (`Store`): each network request the program issues is
recorded in a trace of `StoreCall`s, and the store's responses are given by
the `Store` structure.  Rust `unwrap`/slice panics are modelled by the
`Outcome.panicked` result (functions that can panic return `Option`, with
`none` standing for a panic).  `process::exit(1)` and `Err` returns from
`main` are both non-zero process exits, modelled by `Outcome.exitFailure`.

The embedding starts after configuration resolution (argument parsing and
environment-variable lookup, lines 51-72 of `main.rs`): `runMain` models
lines 74-152, `display_object_list` lines 155-163, and
`get_version_for_hash` lines 166-182.  The MD5 hasher
(`md5::Md5::digest`) is an external library call and is passed in as an
abstract function from the payload bytes to a hex string; theorems
quantify over it.  Transport-level failures of the store calls themselves
(the `?` on `send()`) are not modelled: responses are always delivered.
-/

set_option autoImplicit false

namespace S3Test

/-- Rust `u8::to_ascii_lowercase` on one character: maps `A`-`Z` to
`a`-`z` and leaves every other character unchanged. -/
def asciiLowerChar (c : Char) : Char :=
  if 'A' ≤ c ∧ c ≤ 'Z' then Char.ofNat (c.toNat + 32) else c

/-- Rust `str::to_ascii_lowercase`. -/
def toAsciiLowercase (s : String) : String :=
  ⟨s.data.map asciiLowerChar⟩

/-- Rust slice `&s[1..s.len()-1]`: drops the first and last character.
Panics (modelled as `none`) when the length is below 2: for `len = 0`
the index `len - 1` underflows, for `len = 1` the range `1..0` is
invalid.  (Tags in this program are ASCII, so byte and character
indices coincide.) -/
def sliceInner (s : String) : Option String :=
  if 2 ≤ s.data.length then some ⟨(s.data.drop 1).dropLast⟩ else none

/-- The tool's entity-tag normalization, as written in `main.rs`
lines 111-112 and 173-174: lower-case the tag, then slice off the first
and last character (intended to remove the quotes S3 puts around ETags).
`none` models the slice panicking. -/
def normalizeETag (tag : String) : Option String :=
  sliceInner (toAsciiLowercase tag)

/-- One entry of a `list_object_versions` response
(`aws_sdk_s3::types::ObjectVersion`): the fields the program reads.
`e_tag()` and `version_id()` are optional in the SDK, `size()` is an
integer. -/
structure ObjectVersion where
  versionId : Option String
  size : Int
  eTag : Option String
deriving DecidableEq

/-- One entry of a `list_objects_v2` response
(`aws_sdk_s3::types::Object`): the program only reads `key()`. -/
structure S3Object where
  key : Option String
deriving DecidableEq

/-- `aws_sdk_s3::types::BucketVersioningStatus`; `other` models the
non-exhaustive unknown variants of the SDK enum. -/
inductive BucketVersioningStatus where
  | enabled
  | suspended
  | other (s : String)
deriving DecidableEq

/-- Checksum algorithms the program can request on a put. -/
inductive ChecksumAlg where
  | sha256
deriving DecidableEq

/-- One network request issued to the object store, with the request
parameters the program sets. -/
inductive StoreCall where
  | getBucketVersioning
  | listObjectsV2 (pfx : Option String)
  | listObjectVersions (pfx : Option String)
  | putObject (key : String) (checksumAlgorithm : Option ChecksumAlg) (body : List Nat)
  | deleteObject (key : String) (versionId : String)
  | copyObject (copySource : String) (key : String)
deriving DecidableEq

/-- The store's responses for one run: the bucket-versioning status, the
`list_objects_v2` contents for a given prefix, the `list_object_versions`
versions for a given prefix, and the version id attached to a successful
put response. -/
structure Store where
  versioningStatus : Option BucketVersioningStatus
  contents : Option String → Option (List S3Object)
  versions : Option String → Option (List ObjectVersion)
  putVersionId : Option String

/-- How one invocation of the tool ends. -/
inductive Outcome where
  | ok
  | exitFailure
  | panicked
deriving DecidableEq

/-- The observable result of one invocation: the store calls issued in
order, the lines printed to stdout, and how the process ended. -/
structure RunResult where
  calls : List StoreCall
  output : List String
  outcome : Outcome
deriving DecidableEq

/-- The CLI subcommands (`enum Commands` in `main.rs`). -/
inductive Commands where
  | listFiles
  | ls (p : String)
  | listVersions (name : String)
  | putVersion (name : String) (filePath : String)
  | deleteVersion (name : String) (version : String)
  | copyObject (source : String) (dest : String)
deriving DecidableEq

/-- Rust `Debug` rendering of a string (`{:?}`): surrounding quotes, with
quote and backslash characters escaped (the escapes for non-printable
characters do not arise for the keys considered here and are omitted). -/
def rustDebugStr (s : String) : String :=
  "\"" ++ ⟨s.data.flatMap (fun c => if c = '"' ∨ c = '\\' then ['\\', c] else [c])⟩ ++ "\""

/-- `display_object_list` (lines 155-163): prints one `Object: {:?}` line
per entry when the response has a contents list, and `no contents` when
the contents field is absent. -/
def display_object_list (contents : Option (List S3Object)) : List String :=
  match contents with
  | some objs => objs.map (fun o => "Object: " ++ rustDebugStr (o.key.getD "<none>"))
  | none => ["no contents"]

/-- The `ListVersions` loop body (lines 109-114): for each version,
unwrap the entity tag, lower-case it, unwrap the version id, slice the
tag, and print one line.  Returns the lines printed together with a flag
recording whether some unwrap or slice panicked (lines before the panic
are still printed). -/
def listVersionsRun : List ObjectVersion → List String × Bool
  | [] => ([], false)
  | v :: rest =>
    match v.eTag with
    | none => ([], true)
    | some tag =>
      let str := toAsciiLowercase tag
      match v.versionId with
      | none => ([], true)
      | some vid =>
        match sliceInner str with
        | none => ([], true)
        | some inner =>
          let r := listVersionsRun rest
          (("version: " ++ vid ++ ": " ++ toString v.size ++ " (" ++ inner ++ ")") :: r.1, r.2)

/-- The scan inside `get_version_for_hash` (lines 171-180): walk the
versions in the store's order; for each, unwrap and normalize the entity
tag and compare it to the hash; on the first match unwrap and return that
version's id.  Outer `none` models a panic, `some none` is `Ok(None)`,
`some (some vid)` is `Ok(Some(vid))`. -/
def scanVersions (hash : String) : List ObjectVersion → Option (Option String)
  | [] => some none
  | v :: rest =>
    match v.eTag with
    | none => none
    | some tag =>
      match normalizeETag tag with
      | none => none
      | some str =>
        if str = hash then
          match v.versionId with
          | none => none
          | some vid => some (some vid)
        else scanVersions hash rest

/-- `get_version_for_hash` (lines 166-182): list the versions under the
key as a prefix and scan them; when the response has no versions list the
result is `Ok(None)`. -/
def get_version_for_hash (hash : String) (resp : Option (List ObjectVersion)) :
    Option (Option String) :=
  match resp with
  | none => some none
  | some versions => scanVersions hash versions

/-- The store calls, output and outcome of one subcommand, after the
versioning gate has passed (the match on `args.command`, lines 84-151).
`hashFn` stands for `format!("{:x}", md5::Md5::digest(bytes))`; `fs`
models `tokio::fs::read` (`none` = read error, propagated by `?`). -/
def runCommand (hashFn : List Nat → String) (fs : String → Option (List Nat))
    (bucketName : String) (store : Store) : Commands → RunResult
  | .listFiles =>
    ⟨[.listObjectsV2 none], display_object_list (store.contents none), .ok⟩
  | .ls p =>
    ⟨[.listObjectsV2 (some p)], display_object_list (store.contents (some p)), .ok⟩
  | .listVersions name =>
    match store.versions (some name) with
    | none => ⟨[.listObjectVersions (some name)], [], .ok⟩
    | some versions =>
      let r := listVersionsRun versions
      ⟨[.listObjectVersions (some name)], r.1, if r.2 then .panicked else .ok⟩
  | .putVersion name filePath =>
    match fs filePath with
    | none => ⟨[], [], .exitFailure⟩
    | some bytes =>
      let hash := hashFn bytes
      match get_version_for_hash hash (store.versions (some name)) with
      | none => ⟨[.listObjectVersions (some name)], [], .panicked⟩
      | some (some ver) =>
        ⟨[.listObjectVersions (some name)], ["version already exists: " ++ ver], .exitFailure⟩
      | some none =>
        match store.putVersionId with
        | none =>
          ⟨[.listObjectVersions (some name), .putObject name (some .sha256) bytes], [], .panicked⟩
        | some vid =>
          ⟨[.listObjectVersions (some name), .putObject name (some .sha256) bytes],
            ["put version: " ++ vid], .ok⟩
  | .deleteVersion name version =>
    ⟨[.deleteObject name version], ["delete result"], .ok⟩
  | .copyObject source dest =>
    ⟨[.copyObject (bucketName ++ "/" ++ source) dest], ["copy result"], .ok⟩

/-- `main` after configuration resolution (lines 74-152): query the
bucket-versioning status; when it is absent or not `Enabled`, print a
diagnostic and exit non-zero; otherwise dispatch on the subcommand
(printing a diagnostic and exiting non-zero when none was given). -/
def runMain (hashFn : List Nat → String) (fs : String → Option (List Nat))
    (bucketName : String) (cmd : Option Commands) (store : Store) : RunResult :=
  match store.versioningStatus with
  | none => ⟨[.getBucketVersioning], ["versioning not enabled"], .exitFailure⟩
  | some st =>
    if st = .enabled then
      match cmd with
      | none => ⟨[.getBucketVersioning], ["no command specified"], .exitFailure⟩
      | some c =>
        let r := runCommand hashFn fs bucketName store c
        ⟨.getBucketVersioning :: r.calls, r.output, r.outcome⟩
    else ⟨[.getBucketVersioning], ["versioning not enabled"], .exitFailure⟩

/-! ### Spec-side definitions

Used to state the claims: normalization as the spec words it
(remove the surrounding quote characters, then lower-case), matching and
well-formedness predicates, and a mock store with S3 prefix semantics. -/

/-- Remove a surrounding pair of quote characters, when present. -/
def stripQuotes (s : String) : String :=
  if 2 ≤ s.data.length ∧ s.data.head? = some '"' ∧ s.data.getLast? = some '"' then
    ⟨(s.data.drop 1).dropLast⟩
  else s

/-- Normalization as the spec describes it: remove the store's
surrounding quote characters and lower-case. -/
def specNormalizeTag (tag : String) : String :=
  toAsciiLowercase (stripQuotes tag)

/-- A tag in the form the store contract promises: surrounded by a pair
of quote characters (hence of length at least 2). -/
def quotedTagB (tag : String) : Bool :=
  decide (2 ≤ tag.data.length) && (tag.data.head? == some '"') && (tag.data.getLast? == some '"')

/-- A version entry in the form the store contract (spec section 6)
promises: entity tag present and quoted, version id present. -/
def wfVersionB (v : ObjectVersion) : Bool :=
  (match v.eTag with
   | some tag => quotedTagB tag
   | none => false) && v.versionId.isSome

/-- The version's (spec-)normalized entity tag equals the digest. -/
def matchesB (digest : String) (v : ObjectVersion) : Bool :=
  match v.eTag with
  | some tag => specNormalizeTag tag == digest
  | none => false

/-- The tag is already normalized in the spec's sense: not surrounded by
quote characters and already fully lower-case. -/
def isNormalizedB (s : String) : Bool :=
  (toAsciiLowercase s == s) &&
    !(decide (2 ≤ s.data.length) && (s.data.head? == some '"') && (s.data.getLast? == some '"'))

/-- The line the `ListVersions` loop prints for a well-formed entry. -/
def lineOf (v : ObjectVersion) : String :=
  "version: " ++ v.versionId.getD "" ++ ": " ++ toString v.size ++ " (" ++
    (normalizeETag (v.eTag.getD "")).getD "" ++ ")"

/-- Recognizes the versioning-status request in a trace. -/
def isGateCall : StoreCall → Bool
  | .getBucketVersioning => true
  | _ => false

/-- Recognizes a put request in a trace. -/
def isPutCall : StoreCall → Bool
  | .putObject _ _ _ => true
  | _ => false

/-- `p` is an initial segment of `s` (Rust `str::starts_with` on
character lists). -/
def charsStartWith : List Char → List Char → Bool
  | [], _ => true
  | _ :: _, [] => false
  | c :: cs, d :: ds => c == d && charsStartWith cs ds

/-- The key starts with the request's prefix string. -/
def strStartsWith (s p : String) : Bool :=
  charsStartWith p.data s.data

/-- A version entry together with the key it is stored under, for the
mock store below. -/
structure KeyedVersion where
  key : String
  ver : ObjectVersion
deriving DecidableEq

/-- Mock `list_object_versions` semantics per the S3 contract: the
response lists the versions of every key that starts with the request's
prefix (all keys when no prefix is given). -/
def prefixListVersions (table : List KeyedVersion) (pfx : Option String) :
    Option (List ObjectVersion) :=
  some ((table.filter (fun kv =>
    match pfx with
    | some p => strStartsWith kv.key p
    | none => true)).map KeyedVersion.ver)

/-- A mock store with versioning enabled whose version listings follow
the S3 prefix semantics over `table`. -/
def tableStore (table : List KeyedVersion) (putVid : Option String) : Store where
  versioningStatus := some .enabled
  contents := fun _ => none
  versions := prefixListVersions table
  putVersionId := putVid

/-! ### Shared lemmas -/

theorem normalizeETag_of_quoted {tag : String} (h : quotedTagB tag = true) :
    normalizeETag tag = some (specNormalizeTag tag) := by
  unfold quotedTagB at h
  simp only [Bool.and_eq_true, decide_eq_true_eq, beq_iff_eq] at h
  obtain ⟨⟨h2, hh⟩, hl⟩ := h
  unfold normalizeETag sliceInner toAsciiLowercase specNormalizeTag stripQuotes
  simp only [List.length_map]
  rw [if_pos h2, if_pos ⟨h2, hh, hl⟩]
  simp [toAsciiLowercase, List.map_dropLast, List.map_tail]

theorem scanVersions_eq_find {digest : String} {vs : List ObjectVersion}
    (hwf : vs.all wfVersionB = true) :
    scanVersions digest vs =
      some ((vs.find? (matchesB digest)).bind ObjectVersion.versionId) := by
  induction vs with
  | nil => rfl
  | cons v rest ih =>
    rw [List.all_cons, Bool.and_eq_true] at hwf
    obtain ⟨hv, hrest⟩ := hwf
    obtain ⟨vid?, sz, tag?⟩ := v
    cases tag? with
    | none => simp [wfVersionB] at hv
    | some tag =>
      unfold wfVersionB at hv
      rw [Bool.and_eq_true] at hv
      obtain ⟨htag, hvid⟩ := hv
      cases vid? with
      | none => simp at hvid
      | some vid =>
        simp only [scanVersions, normalizeETag_of_quoted htag]
        by_cases hd : specNormalizeTag tag = digest
        · rw [if_pos hd, List.find?_cons_of_pos]
          · rfl
          · simp [matchesB, hd]
        · rw [if_neg hd, List.find?_cons_of_neg, ih hrest]
          simp [matchesB, hd]

theorem listVersionsRun_of_wf {vs : List ObjectVersion}
    (hwf : vs.all wfVersionB = true) :
    listVersionsRun vs = (vs.map lineOf, false) := by
  induction vs with
  | nil => rfl
  | cons v rest ih =>
    rw [List.all_cons, Bool.and_eq_true] at hwf
    obtain ⟨hv, hrest⟩ := hwf
    obtain ⟨vid?, sz, tag?⟩ := v
    cases tag? with
    | none => simp [wfVersionB] at hv
    | some tag =>
      unfold wfVersionB at hv
      rw [Bool.and_eq_true] at hv
      obtain ⟨htag, hvid⟩ := hv
      cases vid? with
      | none => simp at hvid
      | some vid =>
        have hs : sliceInner (toAsciiLowercase tag) = some (specNormalizeTag tag) :=
          normalizeETag_of_quoted htag
        simp only [listVersionsRun, hs, ih hrest]
        simp [lineOf, normalizeETag_of_quoted htag]

theorem listVersionsRun_panics {vs : List ObjectVersion}
    (h : ∃ v ∈ vs, v.eTag = none ∨ v.versionId = none) :
    (listVersionsRun vs).2 = true := by
  induction vs with
  | nil => simp at h
  | cons v rest ih =>
    obtain ⟨vid?, sz, tag?⟩ := v
    cases tag? with
    | none => rfl
    | some tag =>
      cases vid? with
      | none => rfl
      | some vid =>
        cases hs : sliceInner (toAsciiLowercase tag) with
        | none => simp [listVersionsRun, hs]
        | some inner =>
          simp only [listVersionsRun, hs]
          apply ih
          rcases h with ⟨w, hw, hbad⟩
          rcases List.mem_cons.mp hw with hwv | hwrest
          · subst hwv; simp at hbad
          · exact ⟨w, hwrest, hbad⟩

theorem runCommand_no_gate (hashFn : List Nat → String) (fs : String → Option (List Nat))
    (bucketName : String) (store : Store) (c : Commands) :
    (runCommand hashFn fs bucketName store c).calls.countP isGateCall = 0 := by
  cases c with
  | listFiles => simp [runCommand, isGateCall]
  | ls p => simp [runCommand, isGateCall]
  | listVersions name =>
    cases h : store.versions (some name) with
    | none => simp [runCommand, h, isGateCall]
    | some vs => simp [runCommand, h, isGateCall]
  | putVersion name filePath =>
    cases hf : fs filePath with
    | none => simp [runCommand, hf]
    | some bytes =>
      cases hg : get_version_for_hash (hashFn bytes) (store.versions (some name)) with
      | none => simp [runCommand, hf, hg, isGateCall]
      | some o =>
        cases o with
        | none =>
          cases hp : store.putVersionId with
          | none => simp [runCommand, hf, hg, hp, isGateCall]
          | some vid => simp [runCommand, hf, hg, hp, isGateCall]
        | some ver => simp [runCommand, hf, hg, isGateCall]
  | deleteVersion name version => simp [runCommand, isGateCall]
  | copyObject source dest => simp [runCommand, isGateCall]

/-! ### Claim theorems (string level) -/

/-- C3: `get_version_for_hash` returns the version id of the first
version, in the store's returned order, whose entity tag after removing
the surrounding quotes and lower-casing equals the digest byte-for-byte,
and `Ok(None)` when no version matches.  (Stated for store responses
that honour the contract: tags present and quoted, version ids
present.  The function is pure: it only reads the listing response.) -/
theorem get_version_for_hash_first_match (digest : String) (vs : List ObjectVersion)
    (hwf : vs.all wfVersionB = true) :
    get_version_for_hash digest (some vs) =
      some ((vs.find? (matchesB digest)).bind ObjectVersion.versionId) :=
  scanVersions_eq_find hwf

/-- Witness for C3: a two-entry listing where the second entry is the
first (and only) match. -/
theorem get_version_for_hash_first_match_witness :
    get_version_for_hash "abc"
      (some [⟨some "v1", 1, some "\"zz\""⟩, ⟨some "v2", 2, some "\"ABC\""⟩]) =
      some (some "v2") := by
  rw [get_version_for_hash_first_match "abc"
    [⟨some "v1", 1, some "\"zz\""⟩, ⟨some "v2", 2, some "\"ABC\""⟩] (by decide)]
  decide

/-- C6 counterexample: `"abc"` is already normalized (no surrounding
quotes, lower-case), yet the tool's normalization does not return it
unchanged — it strips the first and last characters. -/
theorem normalization_not_idempotent :
    isNormalizedB "abc" = true ∧ normalizeETag "abc" ≠ some "abc" := by decide

/-- C6 amended: on an already-normalized tag of length at least 2 the
tool's normalization returns the tag with its first and last characters
removed — never the tag itself (for shorter tags it panics instead of
returning a string, see C9). -/
theorem normalization_on_normalized_strips_two (s : String)
    (hnorm : isNormalizedB s = true) (hlen : 2 ≤ s.data.length) :
    normalizeETag s = some ⟨(s.data.drop 1).dropLast⟩ ∧ normalizeETag s ≠ some s := by
  unfold isNormalizedB at hnorm
  rw [Bool.and_eq_true] at hnorm
  have hlow : toAsciiLowercase s = s := by
    have := hnorm.1
    rwa [beq_iff_eq] at this
  have heq : normalizeETag s = some ⟨(s.data.drop 1).dropLast⟩ := by
    unfold normalizeETag sliceInner
    rw [hlow, if_pos hlen]
  refine ⟨heq, ?_⟩
  rw [heq]
  intro hcon
  have hdata : (s.data.drop 1).dropLast = s.data := congrArg String.data (Option.some.inj hcon)
  have hlength := congrArg List.length hdata
  simp only [List.length_dropLast, List.length_drop] at hlength
  omega

/-- Witness for C6 (amended): normalizing the already-normalized `"abc"`
yields `"b"`, not `"abc"`. -/
theorem normalization_on_normalized_strips_two_witness :
    normalizeETag "abc" = some "b" ∧ normalizeETag "abc" ≠ some "abc" := by
  have h := normalization_on_normalized_strips_two "abc" (by decide) (by decide)
  exact ⟨by rw [h.1]; decide, h.2⟩

/-- C9: the tool's entity-tag normalization removes the first and last
character of the lower-cased tag unconditionally: for a tag of length at
least 2 it returns the lower-cased tag minus its first and last
characters (two characters shorter, quotes or not), and for a tag of
length below 2 the slice `[1..len-1]` is out of bounds and it panics
(`none`) instead of returning a string. -/
theorem normalizeETag_unconditional_slice (tag : String) :
    (2 ≤ tag.data.length →
      normalizeETag tag = some ⟨((toAsciiLowercase tag).data.drop 1).dropLast⟩ ∧
      (⟨((toAsciiLowercase tag).data.drop 1).dropLast⟩ : String).data.length =
        tag.data.length - 2) ∧
    (tag.data.length < 2 → normalizeETag tag = none) := by
  constructor
  · intro h2
    constructor
    · unfold normalizeETag sliceInner toAsciiLowercase
      simp only [List.length_map]
      rw [if_pos h2]
    · simp only [List.length_dropLast, List.length_drop]
      unfold toAsciiLowercase
      simp only [List.length_map]
      omega
  · intro h2
    unfold normalizeETag sliceInner toAsciiLowercase
    simp only [List.length_map]
    rw [if_neg (by omega)]

/-- Witness for C9: the unquoted four-character tag `"XYZW"` loses two
characters, and the one-character tag `"x"` panics. -/
theorem normalizeETag_unconditional_slice_witness :
    normalizeETag "XYZW" = some "yz" ∧ normalizeETag "x" = none := by
  have h1 := (normalizeETag_unconditional_slice "XYZW").1 (by decide)
  have h2 := (normalizeETag_unconditional_slice "x").2 (by decide)
  exact ⟨by rw [h1.1]; decide, h2⟩

/-! ### Claim theorems (run level) -/

/-- C4: on every invocation and for every subcommand (including the
no-subcommand case), the bucket-versioning status request is the first
store call and occurs exactly once; when the status is absent or not
`Enabled`, the diagnostic is printed and the process exits non-zero with
no further store call issued. -/
theorem versioning_gate (hashFn : List Nat → String) (fs : String → Option (List Nat))
    (bucketName : String) (cmd : Option Commands) (store : Store) :
    (runMain hashFn fs bucketName cmd store).calls.head? = some .getBucketVersioning ∧
    (runMain hashFn fs bucketName cmd store).calls.countP isGateCall = 1 ∧
    (store.versioningStatus ≠ some .enabled →
      runMain hashFn fs bucketName cmd store =
        ⟨[.getBucketVersioning], ["versioning not enabled"], .exitFailure⟩) := by
  cases hst : store.versioningStatus with
  | none => exact ⟨by simp [runMain, hst], by simp [runMain, hst, isGateCall], fun _ => by simp [runMain, hst]⟩
  | some st =>
    by_cases he : st = BucketVersioningStatus.enabled
    · subst he
      cases cmd with
      | none =>
        refine ⟨by simp [runMain, hst], by simp [runMain, hst, isGateCall], fun hne => absurd rfl hne⟩
      | some c =>
        refine ⟨?_, ?_, fun hne => absurd rfl hne⟩
        · simp [runMain, hst]
        · simp [runMain, hst, List.countP_cons, isGateCall, runCommand_no_gate]
    · refine ⟨?_, ?_, fun _ => ?_⟩ <;> simp [runMain, hst, he, isGateCall]

/-- Witness for C4: with a suspended-versioning store, any command (here
`list-files`) produces only the versioning call, the diagnostic, and a
non-zero exit. -/
theorem versioning_gate_witness :
    runMain (fun _ => "") (fun _ => none) "b" (some .listFiles)
      { versioningStatus := some .suspended, contents := fun _ => none,
        versions := fun _ => none, putVersionId := none } =
      ⟨[.getBucketVersioning], ["versioning not enabled"], .exitFailure⟩ :=
  (versioning_gate (fun _ => "") (fun _ => none) "b" (some .listFiles)
    { versioningStatus := some .suspended, contents := fun _ => none,
      versions := fun _ => none, putVersionId := none }).2.2 (by decide)

/-- C1: when some existing version in the listing for the key matches
the payload's digest (the first such version being `v` with id `vid`),
the put-version flow reports that existing version id, exits non-zero,
and issues no put call: the trace is exactly the versioning check and
one version-listing request.  (Store responses are assumed to honour the
contract: tags present and quoted, version ids present.) -/
theorem put_version_conflict (hashFn : List Nat → String) (fs : String → Option (List Nat))
    (bucketName name filePath : String) (store : Store) (bytes : List Nat)
    (vs : List ObjectVersion) (v : ObjectVersion) (vid : String)
    (henv : store.versioningStatus = some BucketVersioningStatus.enabled)
    (hread : fs filePath = some bytes)
    (hvs : store.versions (some name) = some vs)
    (hwf : vs.all wfVersionB = true)
    (hfind : vs.find? (matchesB (hashFn bytes)) = some v)
    (hvid : v.versionId = some vid) :
    v ∈ vs ∧ matchesB (hashFn bytes) v = true ∧
    runMain hashFn fs bucketName (some (.putVersion name filePath)) store =
      ⟨[.getBucketVersioning, .listObjectVersions (some name)],
        ["version already exists: " ++ vid], .exitFailure⟩ := by
  refine ⟨List.mem_of_find?_eq_some hfind, List.find?_some hfind, ?_⟩
  have hscan : get_version_for_hash (hashFn bytes) (some vs) = some (some vid) := by
    show scanVersions (hashFn bytes) vs = some (some vid)
    rw [scanVersions_eq_find hwf, hfind]
    simp [Option.bind, hvid]
  simp [runMain, henv, runCommand, hread, hvs, hscan]

/-- Witness for C1: a store already holding a version with the payload's
digest; the run reports `v1`, exits non-zero, and issues no put. -/
theorem put_version_conflict_witness :
    (⟨some "v1", 3, some "\"ABC\""⟩ : ObjectVersion) ∈
        ([⟨some "v1", 3, some "\"ABC\""⟩] : List ObjectVersion) ∧
    matchesB "abc" ⟨some "v1", 3, some "\"ABC\""⟩ = true ∧
    runMain (fun _ => "abc") (fun _ => some [1]) "b" (some (.putVersion "k" "f"))
      { versioningStatus := some .enabled, contents := fun _ => none,
        versions := fun _ => some [⟨some "v1", 3, some "\"ABC\""⟩], putVersionId := some "pv" } =
      ⟨[.getBucketVersioning, .listObjectVersions (some "k")],
        ["version already exists: v1"], .exitFailure⟩ :=
  put_version_conflict (fun _ => "abc") (fun _ => some [1]) "b" "k" "f"
    { versioningStatus := some .enabled, contents := fun _ => none,
      versions := fun _ => some [⟨some "v1", 3, some "\"ABC\""⟩], putVersionId := some "pv" }
    [1] [⟨some "v1", 3, some "\"ABC\""⟩] ⟨some "v1", 3, some "\"ABC\""⟩ "v1"
    rfl rfl rfl (by decide) (by decide) rfl

/-- C2: when no existing version in the listing for the key matches the
payload's digest, exactly one put call is issued, for the given key and
with a checksum algorithm requested, and the tool prints the version id
the store assigned. -/
theorem put_version_upload (hashFn : List Nat → String) (fs : String → Option (List Nat))
    (bucketName name filePath : String) (store : Store) (bytes : List Nat) (vid : String)
    (henv : store.versioningStatus = some BucketVersioningStatus.enabled)
    (hread : fs filePath = some bytes)
    (hno : ∀ vs, store.versions (some name) = some vs →
      vs.all wfVersionB = true ∧ ∀ v ∈ vs, matchesB (hashFn bytes) v = false)
    (hput : store.putVersionId = some vid) :
    runMain hashFn fs bucketName (some (.putVersion name filePath)) store =
      ⟨[.getBucketVersioning, .listObjectVersions (some name),
          .putObject name (some .sha256) bytes],
        ["put version: " ++ vid], .ok⟩ ∧
    (runMain hashFn fs bucketName (some (.putVersion name filePath)) store).calls.countP
      isPutCall = 1 := by
  have hscan : get_version_for_hash (hashFn bytes) (store.versions (some name)) = some none := by
    cases hvs : store.versions (some name) with
    | none => rfl
    | some vs =>
      obtain ⟨hwf, hvno⟩ := hno vs hvs
      show scanVersions (hashFn bytes) vs = some none
      rw [scanVersions_eq_find hwf, List.find?_eq_none.mpr (fun v hv => by simp [hvno v hv])]
      rfl
  have hrun : runMain hashFn fs bucketName (some (.putVersion name filePath)) store =
      ⟨[.getBucketVersioning, .listObjectVersions (some name),
          .putObject name (some .sha256) bytes],
        ["put version: " ++ vid], .ok⟩ := by
    simp [runMain, henv, runCommand, hread, hscan, hput]
  exact ⟨hrun, by rw [hrun]; simp [List.countP_cons, isPutCall]⟩

/-- Witness for C2: no existing version matches the digest `zzz`; the
run issues one put (with checksum) and prints the assigned id `pv`. -/
theorem put_version_upload_witness :
    runMain (fun _ => "zzz") (fun _ => some [1, 2]) "b" (some (.putVersion "k" "f"))
      { versioningStatus := some .enabled, contents := fun _ => none,
        versions := fun _ => some [⟨some "v1", 3, some "\"ABC\""⟩], putVersionId := some "pv" } =
      ⟨[.getBucketVersioning, .listObjectVersions (some "k"),
          .putObject "k" (some .sha256) [1, 2]],
        ["put version: pv"], .ok⟩ :=
  (put_version_upload (fun _ => "zzz") (fun _ => some [1, 2]) "b" "k" "f"
    { versioningStatus := some .enabled, contents := fun _ => none,
      versions := fun _ => some [⟨some "v1", 3, some "\"ABC\""⟩], putVersionId := some "pv" }
    [1, 2] "pv" rfl rfl
    (fun vs h => by obtain rfl := Option.some.inj h; decide)
    rfl).1

/-- C5: a list-versions run over a store response of N entries prints
exactly N lines, one per entry in the store's order, each line being
`version: <id>: <size> (<normalized tag>)` for its entry.  (Entries are
assumed to honour the store contract: tags present and quoted, version
ids present.) -/
theorem list_versions_exhaustive (hashFn : List Nat → String) (fs : String → Option (List Nat))
    (bucketName name : String) (store : Store) (vs : List ObjectVersion)
    (henv : store.versioningStatus = some BucketVersioningStatus.enabled)
    (hvs : store.versions (some name) = some vs)
    (hwf : vs.all wfVersionB = true) :
    runMain hashFn fs bucketName (some (.listVersions name)) store =
      ⟨[.getBucketVersioning, .listObjectVersions (some name)], vs.map lineOf, .ok⟩ ∧
    (runMain hashFn fs bucketName (some (.listVersions name)) store).output.length =
      vs.length := by
  have hrun : runMain hashFn fs bucketName (some (.listVersions name)) store =
      ⟨[.getBucketVersioning, .listObjectVersions (some name)], vs.map lineOf, .ok⟩ := by
    simp [runMain, henv, runCommand, hvs, listVersionsRun_of_wf hwf]
  exact ⟨hrun, by rw [hrun]; simp⟩

/-- Witness for C5: two entries produce exactly their two lines, in
order. -/
theorem list_versions_exhaustive_witness :
    runMain (fun _ => "") (fun _ => none) "b" (some (.listVersions "k"))
      { versioningStatus := some .enabled, contents := fun _ => none,
        versions := fun _ => some [⟨some "v1", 3, some "\"ABC\""⟩, ⟨some "v2", 7, some "\"9f\""⟩],
        putVersionId := none } =
      ⟨[.getBucketVersioning, .listObjectVersions (some "k")],
        ["version: v1: 3 (abc)", "version: v2: 7 (9f)"], .ok⟩ := by
  have h := (list_versions_exhaustive (fun _ => "") (fun _ => none) "b" "k"
    { versioningStatus := some .enabled, contents := fun _ => none,
      versions := fun _ => some [⟨some "v1", 3, some "\"ABC\""⟩, ⟨some "v2", 7, some "\"9f\""⟩],
      putVersionId := none }
    [⟨some "v1", 3, some "\"ABC\""⟩, ⟨some "v2", 7, some "\"9f\""⟩] rfl rfl (by decide)).1
  rw [h]; decide

theorem scanVersions_append_no_match {digest : String} {ws : List ObjectVersion}
    (rest : List ObjectVersion) (hwf : ws.all wfVersionB = true)
    (hno : ∀ w ∈ ws, matchesB digest w = false) :
    scanVersions digest (ws ++ rest) = scanVersions digest rest := by
  induction ws with
  | nil => rfl
  | cons w ws ih =>
    rw [List.all_cons, Bool.and_eq_true] at hwf
    obtain ⟨hw, hws⟩ := hwf
    obtain ⟨vid?, sz, tag?⟩ := w
    cases tag? with
    | none => simp [wfVersionB] at hw
    | some tag =>
      unfold wfVersionB at hw
      rw [Bool.and_eq_true] at hw
      have hm := hno _ (List.mem_cons_self _ _)
      simp only [matchesB, beq_eq_false_iff_ne, ne_eq] at hm
      simp only [List.cons_append, scanVersions, normalizeETag_of_quoted hw.1]
      rw [if_neg hm]
      exact ih hws (fun x hx => hno x (List.mem_cons_of_mem _ hx))

/-- C7 counterexample: a version-listing invocation where the store
returns no versions list produces no output at all — in particular no
explicit `no contents` indication. -/
theorem empty_versions_silent :
    runMain (fun _ => "") (fun _ => none) "b" (some (.listVersions "k"))
      { versioningStatus := some .enabled, contents := fun _ => none,
        versions := fun _ => none, putVersionId := none } =
      ⟨[.getBucketVersioning, .listObjectVersions (some "k")], [], .ok⟩ := by decide

/-- C7 amended: only object listings report an absent contents list: a
`list-files` or `ls` invocation whose store response has no contents
prints `no contents`, while a `list-versions` invocation whose store
response has no versions prints nothing at all. -/
theorem empty_listing_output (hashFn : List Nat → String) (fs : String → Option (List Nat))
    (bucketName p name : String) (store : Store)
    (henv : store.versioningStatus = some BucketVersioningStatus.enabled)
    (hc : store.contents none = none) (hcp : store.contents (some p) = none)
    (hv : store.versions (some name) = none) :
    (runMain hashFn fs bucketName (some .listFiles) store).output = ["no contents"] ∧
    (runMain hashFn fs bucketName (some (.ls p)) store).output = ["no contents"] ∧
    (runMain hashFn fs bucketName (some (.listVersions name)) store).output = [] := by
  refine ⟨?_, ?_, ?_⟩ <;> simp [runMain, henv, runCommand, hc, hcp, hv, display_object_list]

/-- Witness for C7 (amended): an empty store answers `list-files` and
`ls` with `no contents` and `list-versions` with silence. -/
theorem empty_listing_output_witness :
    (runMain (fun _ => "") (fun _ => none) "b" (some .listFiles)
      { versioningStatus := some .enabled, contents := fun _ => none,
        versions := fun _ => none, putVersionId := none }).output = ["no contents"] ∧
    (runMain (fun _ => "") (fun _ => none) "b" (some (.ls "p"))
      { versioningStatus := some .enabled, contents := fun _ => none,
        versions := fun _ => none, putVersionId := none }).output = ["no contents"] ∧
    (runMain (fun _ => "") (fun _ => none) "b" (some (.listVersions "k"))
      { versioningStatus := some .enabled, contents := fun _ => none,
        versions := fun _ => none, putVersionId := none }).output = [] :=
  empty_listing_output (fun _ => "") (fun _ => none) "b" "p" "k"
    { versioningStatus := some .enabled, contents := fun _ => none,
      versions := fun _ => none, putVersionId := none } rfl rfl rfl rfl

/-- C8: both the dedup check and the list-versions command request the
version listing with the key as a *prefix*: over a store following the
S3 prefix semantics (`tableStore`), a single version stored under a
different key `K2` that merely starts with `K` both causes put-version
on `K` to report a conflict with that version's id (with no put issued)
and appears in the listing for `K`.  The traces show the request carries
`K` in the prefix field. -/
theorem prefix_listing_cross_key (hashFn : List Nat → String) (fs : String → Option (List Nat))
    (bucketName K K2 filePath : String) (bytes : List Nat) (v : ObjectVersion)
    (vid : String) (putVid : Option String)
    (hread : fs filePath = some bytes)
    (hpre : strStartsWith K2 K = true) (_hne : K2 ≠ K)
    (hwf : wfVersionB v = true)
    (hmatch : matchesB (hashFn bytes) v = true)
    (hvid : v.versionId = some vid) :
    runMain hashFn fs bucketName (some (.putVersion K filePath)) (tableStore [⟨K2, v⟩] putVid) =
      ⟨[.getBucketVersioning, .listObjectVersions (some K)],
        ["version already exists: " ++ vid], .exitFailure⟩ ∧
    runMain hashFn fs bucketName (some (.listVersions K)) (tableStore [⟨K2, v⟩] putVid) =
      ⟨[.getBucketVersioning, .listObjectVersions (some K)], [lineOf v], .ok⟩ := by
  have hresp : prefixListVersions [⟨K2, v⟩] (some K) = some [v] := by
    simp [prefixListVersions, hpre]
  have hall : ([v] : List ObjectVersion).all wfVersionB = true := by simp [hwf]
  constructor
  · have hscan : get_version_for_hash (hashFn bytes) (some [v]) = some (some vid) := by
      show scanVersions (hashFn bytes) [v] = some (some vid)
      rw [scanVersions_eq_find hall, List.find?_cons_of_pos _ hmatch]
      simp [Option.bind, hvid]
    simp [runMain, tableStore, runCommand, hread, hresp, hscan]
  · simp [runMain, tableStore, runCommand, hresp, listVersionsRun_of_wf hall]

/-- Witness for C8: key `report.pdf.bak` starts with `report.pdf` but
differs from it; its version both blocks `put-version report.pdf` and is
printed by `list-versions report.pdf`. -/
theorem prefix_listing_cross_key_witness :
    runMain (fun _ => "abc") (fun _ => some [9]) "b" (some (.putVersion "report.pdf" "f"))
      (tableStore [⟨"report.pdf.bak", ⟨some "v9", 4, some "\"ABC\""⟩⟩] (some "pv")) =
      ⟨[.getBucketVersioning, .listObjectVersions (some "report.pdf")],
        ["version already exists: v9"], .exitFailure⟩ ∧
    runMain (fun _ => "abc") (fun _ => some [9]) "b" (some (.listVersions "report.pdf"))
      (tableStore [⟨"report.pdf.bak", ⟨some "v9", 4, some "\"ABC\""⟩⟩] (some "pv")) =
      ⟨[.getBucketVersioning, .listObjectVersions (some "report.pdf")],
        [lineOf ⟨some "v9", 4, some "\"ABC\""⟩], .ok⟩ :=
  prefix_listing_cross_key (fun _ => "abc") (fun _ => some [9]) "b" "report.pdf"
    "report.pdf.bak" "f" [9] ⟨some "v9", 4, some "\"ABC\""⟩ "v9" (some "pv")
    rfl (by decide) (by decide) (by decide) (by decide) rfl

/-- C10 counterexample: a store response in which the sole listed
version lacks a version id, yet the dedup check completes without
panicking: its tag does not match, no unwrap of the id is reached, and
the put proceeds normally. -/
theorem dedup_no_panic_on_missing_id :
    runMain (fun _ => "zz") (fun _ => some [7]) "b" (some (.putVersion "k" "f"))
      { versioningStatus := some .enabled, contents := fun _ => none,
        versions := fun _ => some [⟨none, 5, some "\"ab\""⟩], putVersionId := some "pv" } =
      ⟨[.getBucketVersioning, .listObjectVersions (some "k"),
          .putObject "k" (some .sha256) [7]],
        ["put version: pv"], .ok⟩ := by decide

/-- C10 amended: the unwrapping panics occur exactly where the unwrap is
reached: (1) list-versions panics whenever any listed version lacks an
entity tag or a version id; (2) the dedup check panics when the scan
reaches a version lacking an entity tag before any match; (3) the dedup
check panics when the first matching version lacks a version id; (4) the
put success path panics when the put response lacks a version id.  (A
version lacking only a version id that is never the first match does not
make the dedup check panic — see the counterexample.) -/
theorem unwrap_panic_behavior :
    (∀ (hashFn : List Nat → String) (fs : String → Option (List Nat))
        (bucketName name : String) (store : Store) (vs : List ObjectVersion),
      store.versioningStatus = some BucketVersioningStatus.enabled →
      store.versions (some name) = some vs →
      (∃ v ∈ vs, v.eTag = none ∨ v.versionId = none) →
      (runMain hashFn fs bucketName (some (.listVersions name)) store).outcome =
        Outcome.panicked) ∧
    (∀ (hashFn : List Nat → String) (fs : String → Option (List Nat))
        (bucketName name filePath : String) (store : Store) (bytes : List Nat)
        (ws rest : List ObjectVersion) (v : ObjectVersion),
      store.versioningStatus = some BucketVersioningStatus.enabled →
      fs filePath = some bytes →
      store.versions (some name) = some (ws ++ v :: rest) →
      ws.all wfVersionB = true →
      (∀ w ∈ ws, matchesB (hashFn bytes) w = false) →
      v.eTag = none →
      (runMain hashFn fs bucketName (some (.putVersion name filePath)) store).outcome =
        Outcome.panicked) ∧
    (∀ (hashFn : List Nat → String) (fs : String → Option (List Nat))
        (bucketName name filePath : String) (store : Store) (bytes : List Nat)
        (ws rest : List ObjectVersion) (v : ObjectVersion) (tag : String),
      store.versioningStatus = some BucketVersioningStatus.enabled →
      fs filePath = some bytes →
      store.versions (some name) = some (ws ++ v :: rest) →
      ws.all wfVersionB = true →
      (∀ w ∈ ws, matchesB (hashFn bytes) w = false) →
      v.eTag = some tag → quotedTagB tag = true →
      specNormalizeTag tag = hashFn bytes → v.versionId = none →
      (runMain hashFn fs bucketName (some (.putVersion name filePath)) store).outcome =
        Outcome.panicked) ∧
    (∀ (hashFn : List Nat → String) (fs : String → Option (List Nat))
        (bucketName name filePath : String) (store : Store) (bytes : List Nat),
      store.versioningStatus = some BucketVersioningStatus.enabled →
      fs filePath = some bytes →
      (∀ vs, store.versions (some name) = some vs →
        vs.all wfVersionB = true ∧ ∀ v ∈ vs, matchesB (hashFn bytes) v = false) →
      store.putVersionId = none →
      (runMain hashFn fs bucketName (some (.putVersion name filePath)) store).outcome =
          Outcome.panicked ∧
        StoreCall.putObject name (some .sha256) bytes ∈
          (runMain hashFn fs bucketName (some (.putVersion name filePath)) store).calls) := by
  refine ⟨?_, ?_, ?_, ?_⟩
  · intro hashFn fs bucketName name store vs henv hvs hbad
    simp [runMain, henv, runCommand, hvs, listVersionsRun_panics hbad]
  · intro hashFn fs bucketName name filePath store bytes ws rest v henv hread hvs hwfws hno hbad
    have hscan : get_version_for_hash (hashFn bytes) (some (ws ++ v :: rest)) = none := by
      show scanVersions (hashFn bytes) (ws ++ v :: rest) = none
      rw [scanVersions_append_no_match _ hwfws hno]
      obtain ⟨vid?, sz, tag?⟩ := v
      cases tag? with
      | none => rfl
      | some tag => simp at hbad
    simp [runMain, henv, runCommand, hread, hvs, hscan]
  · intro hashFn fs bucketName name filePath store bytes ws rest v tag henv hread hvs hwfws hno
      htag hq hspec hvid
    have hscan : get_version_for_hash (hashFn bytes) (some (ws ++ v :: rest)) = none := by
      show scanVersions (hashFn bytes) (ws ++ v :: rest) = none
      rw [scanVersions_append_no_match _ hwfws hno]
      obtain ⟨vid?, sz, tag?⟩ := v
      simp only [ObjectVersion.eTag] at htag
      subst htag
      simp only [ObjectVersion.versionId] at hvid
      subst hvid
      simp only [scanVersions, normalizeETag_of_quoted hq]
      rw [if_pos hspec]
    simp [runMain, henv, runCommand, hread, hvs, hscan]
  · intro hashFn fs bucketName name filePath store bytes henv hread hno hput
    have hscan : get_version_for_hash (hashFn bytes) (store.versions (some name)) =
        some none := by
      cases hvs : store.versions (some name) with
      | none => rfl
      | some vs =>
        obtain ⟨hwf, hvno⟩ := hno vs hvs
        show scanVersions (hashFn bytes) vs = some none
        rw [scanVersions_eq_find hwf,
          List.find?_eq_none.mpr (fun v hv => by simp [hvno v hv])]
        rfl
    constructor <;> simp [runMain, henv, runCommand, hread, hscan, hput]

/-- Witness for C10 (amended): list-versions panics on an entry with no
entity tag, and the put success path panics when the put response
carries no version id. -/
theorem unwrap_panic_behavior_witness :
    (runMain (fun _ => "") (fun _ => none) "b" (some (.listVersions "k"))
      { versioningStatus := some .enabled, contents := fun _ => none,
        versions := fun _ => some [⟨some "v1", 1, none⟩], putVersionId := none }).outcome =
      Outcome.panicked ∧
    (runMain (fun _ => "zz") (fun _ => some [7]) "b" (some (.putVersion "k" "f"))
      { versioningStatus := some .enabled, contents := fun _ => none,
        versions := fun _ => some [⟨some "v1", 3, some "\"ab\""⟩],
        putVersionId := none }).outcome = Outcome.panicked := by
  constructor
  · exact unwrap_panic_behavior.1 (fun _ => "") (fun _ => none) "b" "k"
      { versioningStatus := some .enabled, contents := fun _ => none,
        versions := fun _ => some [⟨some "v1", 1, none⟩], putVersionId := none }
      [⟨some "v1", 1, none⟩] rfl rfl ⟨⟨some "v1", 1, none⟩, by decide, Or.inl rfl⟩
  · exact (unwrap_panic_behavior.2.2.2 (fun _ => "zz") (fun _ => some [7]) "b" "k" "f"
      { versioningStatus := some .enabled, contents := fun _ => none,
        versions := fun _ => some [⟨some "v1", 3, some "\"ab\""⟩], putVersionId := none }
      [7] rfl rfl (fun vs h => by obtain rfl := Option.some.inj h; decide) rfl).1

end S3Test
